import Mathlib

/-!
Verification of the concrete-execution accelerator plugin
(`angr/state_plugins/unicorn_engine.py`), shallowly embedded in Lean.

Conventions of the embedding:
* Variable names, instruction addresses, AST identities and cache keys are
  modelled as `Nat` (the source uses strings / Python hashes; only identity
  matters).
* Python `set` becomes `Finset Nat`; Python dicts with `.get(k, 0)` default
  become total functions `Nat → Nat`.
* Python `None`-able integers become `Option Nat`; Python `min`/`max` over
  possibly-`None` values is modelled with explicit error propagation
  (`Except String`), since comparing `None` raises `TypeError`.
* Machine integers are `Nat` with explicit `% 2 ^ w` where width matters.
-/

namespace UnicornPlugin

/-- The relevant state of the `Unicorn` state plugin (class `Unicorn` in
`unicorn_engine.py`), as set up by `Unicorn.__init__`. -/
structure Unicorn where
  cooldown_nonunicorn_blocks : Nat
  cooldown_symbolic_registers : Nat
  cooldown_symbolic_memory : Nat
  cooldown_stop_point : Nat
  countdown_nonunicorn_blocks : Nat
  countdown_symbolic_registers : Nat
  countdown_symbolic_memory : Nat
  countdown_stop_point : Nat
  concretization_threshold_memory : Option Nat
  concretization_threshold_registers : Option Nat
  concretization_threshold_instruction : Option Nat
  always_concretize : Finset Nat
  never_concretize : Finset Nat
  concretize_at : Finset Nat
  /-- `self._concretized_asts`: identities (Python hashes) of ASTs for which a
  concretization constraint was already added. -/
  _concretized_asts : Finset Nat
  /-- `self.symbolic_var_counts` with its `.get(v, 0)` default. -/
  symbolic_var_counts : Nat → Nat
  /-- `self.symbolic_inst_counts` with its `.get(addr, 0)` default. -/
  symbolic_inst_counts : Nat → Nat
  syscall_hooks : List (Nat × Nat)
  cache_key : Nat
  _unicount : Nat
  max_steps : Nat
  /-- `self._uc_state`: opaque native pointer, `None` unless an episode is
  active. -/
  _uc_state : Option Nat
  transmit_addr : Option Nat
  _uncache_pages : List Nat

/-- `Unicorn.copy` (lines 354-380).  The constructor is called with the listed
keyword arguments; arguments *not* passed take the `__init__` defaults, in
particular `cooldown_stop_point=1` (the copy does not pass it), all
countdowns start at `0`, `_uc_state = None`, `transmit_addr = None` and
`_uncache_pages = []`.  Afterwards the countdowns, `transmit_addr` and
`_uncache_pages` are copied over by explicit assignment.  `unicount` is not
passed either (the line is commented out in the source), so the copy draws a
fresh value `fresh` from the global counter. -/
def Unicorn.copy (self : Unicorn) (fresh : Nat) : Unicorn :=
  let u : Unicorn :=
    { syscall_hooks := self.syscall_hooks
      cache_key := self.cache_key
      _unicount := fresh
      symbolic_var_counts := self.symbolic_var_counts
      symbolic_inst_counts := self.symbolic_inst_counts
      _concretized_asts := self._concretized_asts
      always_concretize := self.always_concretize
      never_concretize := self.never_concretize
      concretize_at := self.concretize_at
      concretization_threshold_memory := self.concretization_threshold_memory
      concretization_threshold_registers := self.concretization_threshold_registers
      concretization_threshold_instruction := self.concretization_threshold_instruction
      cooldown_nonunicorn_blocks := self.cooldown_nonunicorn_blocks
      cooldown_symbolic_registers := self.cooldown_symbolic_registers
      cooldown_symbolic_memory := self.cooldown_symbolic_memory
      cooldown_stop_point := 1
      countdown_nonunicorn_blocks := 0
      countdown_symbolic_registers := 0
      countdown_symbolic_memory := 0
      countdown_stop_point := 0
      max_steps := self.max_steps
      _uc_state := none
      transmit_addr := none
      _uncache_pages := [] }
  { u with
      countdown_nonunicorn_blocks := self.countdown_nonunicorn_blocks
      countdown_symbolic_registers := self.countdown_symbolic_registers
      countdown_symbolic_memory := self.countdown_symbolic_memory
      countdown_stop_point := self.countdown_stop_point
      transmit_addr := self.transmit_addr
      _uncache_pages := self._uncache_pages }

/-- Python two-argument `min(a, b)` where either side may be `None`:
comparing `None` with anything raises `TypeError`. -/
def py_min2 : Option Nat → Option Nat → Except String Nat
  | some a, some b => .ok (min a b)
  | _, _ => .error "TypeError"

/-- The fold underlying Python `min(iterable)`: the accumulator is compared
against each further element, and any comparison involving `None` raises
`TypeError`.  A singleton iterable returns its element without comparing. -/
def py_min_fold : Option Nat → List (Option Nat) → Except String (Option Nat)
  | acc, [] => .ok acc
  | some a, some b :: rest => py_min_fold (some (min a b)) rest
  | _, _ :: _ => .error "TypeError"

/-- Python `min(iterable)`: `ValueError` on an empty iterable. -/
def py_min_gen : List (Option Nat) → Except String (Option Nat)
  | [] => .error "ValueError"
  | x :: xs => py_min_fold x xs

/-- One threshold line of `Unicorn.merge`:
`min(self.x, min(o.x for o in others))`. -/
def merge_thr (self_t : Option Nat) (others_t : List (Option Nat)) :
    Except String Nat :=
  match py_min_gen others_t with
  | .error e => .error e
  | .ok inner => py_min2 self_t inner

/-- `max(self.x, max(o.x for o in others))` for the (always-integer) cooldown
and countdown fields, with `others = o :: os` nonempty. -/
def gen_max (x : Nat) (o : Nat) (os : List Nat) : Nat :=
  max x (os.foldl max o)

/-- `Unicorn.merge` (lines 382-444).  Mutation of `self` is modelled by
returning the updated record together with `none` on success or the raised
exception.  An empty `others` raises `ValueError` inside the first `max`
before any field is written.  The cooldown/countdown maxima and the
`_unicount` refresh happen before the threshold minima, so a `TypeError`
raised by a `min` over a `None` threshold leaves them applied.  The four
trailing `…union(...)` / `…intersection(...)` calls return fresh sets that
are immediately discarded (the results are not assigned), so they change
nothing; they are kept here verbatim as discarded bindings. -/
def Unicorn.merge (self : Unicorn) (others : List Unicorn) (fresh : Nat) :
    Unicorn × Option String :=
  match others with
  | [] => (self, some "ValueError")
  | o :: os =>
    let s1 : Unicorn :=
      { self with
          cooldown_nonunicorn_blocks :=
            gen_max self.cooldown_nonunicorn_blocks o.cooldown_nonunicorn_blocks
              (os.map (·.cooldown_nonunicorn_blocks))
          cooldown_symbolic_registers :=
            gen_max self.cooldown_symbolic_registers o.cooldown_symbolic_registers
              (os.map (·.cooldown_symbolic_registers))
          cooldown_symbolic_memory :=
            gen_max self.cooldown_symbolic_memory o.cooldown_symbolic_memory
              (os.map (·.cooldown_symbolic_memory))
          countdown_nonunicorn_blocks :=
            gen_max self.countdown_nonunicorn_blocks o.countdown_nonunicorn_blocks
              (os.map (·.countdown_nonunicorn_blocks))
          countdown_symbolic_registers :=
            gen_max self.countdown_symbolic_registers o.countdown_symbolic_registers
              (os.map (·.countdown_symbolic_registers))
          countdown_symbolic_memory :=
            gen_max self.countdown_symbolic_memory o.countdown_symbolic_memory
              (os.map (·.countdown_symbolic_memory))
          countdown_stop_point :=
            gen_max self.countdown_stop_point o.countdown_stop_point
              (os.map (·.countdown_stop_point))
          _unicount := fresh }
    match merge_thr self.concretization_threshold_memory
        ((o :: os).map (·.concretization_threshold_memory)) with
    | .error e => (s1, some e)
    | .ok tm =>
      let s2 := { s1 with concretization_threshold_memory := some tm }
      match merge_thr self.concretization_threshold_registers
          ((o :: os).map (·.concretization_threshold_registers)) with
      | .error e => (s2, some e)
      | .ok trg =>
        let s3 := { s2 with concretization_threshold_registers := some trg }
        match merge_thr self.concretization_threshold_instruction
            ((o :: os).map (·.concretization_threshold_instruction)) with
        | .error e => (s3, some e)
        | .ok ti =>
          let s4 := { s3 with concretization_threshold_instruction := some ti }
          -- self.always_concretize.union(*[o.always_concretize for o in others])
          let _discard1 := (o :: os).foldl (fun acc q => acc ∪ q.always_concretize)
            s4.always_concretize
          -- self.never_concretize.union(*[o.never_concretize for o in others])
          let _discard2 := (o :: os).foldl (fun acc q => acc ∪ q.never_concretize)
            s4.never_concretize
          -- self.concretize_at.union(*[o.concretize_at for o in others])
          let _discard3 := (o :: os).foldl (fun acc q => acc ∪ q.concretize_at)
            s4.concretize_at
          -- self._concretized_asts.intersection(*[o._concretized_asts for o in others])
          let _discard4 := (o :: os).foldl (fun acc q => acc ∩ q._concretized_asts)
            s4._concretized_asts
          (s4, none)

/-- Where a value comes from: `'reg'` or `'mem'` in the source. -/
inductive Side where
  | reg
  | mem
deriving DecidableEq

/-- A claripy AST as far as the classifier observes it: number of
annotations (`len(d.annotations)`), symbolic flag (`d.symbolic`), free
variables (`d.variables`) and a stable identity (`hash(d)`). -/
structure AST where
  annots : Nat
  symbolic : Bool
  vars : Finset Nat
  ident : Nat
deriving DecidableEq

/-- The pieces of the enclosing `SimState` that `_concretize`,
`_symbolic_passthrough` and `_process_value` read but do not own: the
single-model evaluator `eval_to_ast(d, 1)[0]`, the two relevant option
flags, and the concrete current instruction pointer
(`solver.eval(state.ip)`). -/
structure PassCtx where
  eval : AST → AST
  aggressive : Bool
  sym_regs : Bool
  ip : Nat

/-- The mutable state those methods touch: the plugin itself and the
state's constraint store (recorded as the list of identities of the ASTs
for which an aggressive-concretization equality constraint was added, in
order). -/
structure Sim where
  u : Unicorn
  constraints : List Nat

/-- `Unicorn._concretize` (lines 609-615): evaluate `d` to a single model;
if `hash(d)` is not yet recorded, add the annotated equality constraint and
record the hash; return the model. -/
def _concretize (ctx : PassCtx) (s : Sim) (d : AST) : AST × Sim :=
  let cd := ctx.eval d
  if d.ident ∈ s.u._concretized_asts then (cd, s)
  else
    (cd,
      { u := { s.u with _concretized_asts := insert d.ident s.u._concretized_asts }
        constraints := s.constraints ++ [d.ident] })

/-- `Unicorn._symbolic_passthrough` (lines 617-629). -/
def _symbolic_passthrough (ctx : PassCtx) (s : Sim) (d : AST) : AST × Sim :=
  if d.symbolic = false then (d, s)
  else if ctx.aggressive then _concretize ctx s d
  else if 0 < (d.vars ∩ s.u.never_concretize).card then (d, s)
  else if d.vars ⊆ s.u.always_concretize then _concretize ctx s d
  else if ctx.ip ∈ s.u.concretize_at then _concretize ctx s d
  else (d, s)

/-- `Unicorn._process_value` (lines 655-682): `none` models the Python
`None` return ("refuse"). -/
def _process_value (ctx : PassCtx) (s : Sim) (d : AST) (from_where : Side) :
    Option AST × Sim :=
  if 0 < d.annots then (none, s)
  else if d.symbolic = false then (some d, s)
  else
    let r := _symbolic_passthrough ctx s d
    if r.1.symbolic = false then (some r.1, r.2)
    else if from_where = Side.reg ∧ ctx.sym_regs then (some r.1, r.2)
    else (none, r.2)

/-- `Unicorn._report_symbolic_blocker` (lines 631-653).  `threshold_c` is
`UNICORN_THRESHOLD_CONCRETIZATION in self.state.options`; `ip` is the
concrete current instruction address; `dvars` is `d.variables`. -/
def _report_symbolic_blocker (threshold_c : Bool) (ip : Nat) (u : Unicorn)
    (dvars : List Nat) (from_where : Side) : Unicorn :=
  if threshold_c = false then u
  else
    let u1 :=
      match u.concretization_threshold_instruction with
      | none => u
      | some ti =>
        let count := u.symbolic_inst_counts ip
        let u' := { u with
          symbolic_inst_counts := fun a => if a = ip then count + 1 else u.symbolic_inst_counts a }
        -- if count >= self.concretization_threshold_instruction
        if ti ≤ count then { u' with concretize_at := insert ip u'.concretize_at }
        else u'
    let threshold :=
      if from_where = Side.mem then u1.concretization_threshold_memory
      else u1.concretization_threshold_registers
    match threshold with
    | none => u1
    | some t =>
      dvars.foldl
        (fun q v =>
          let old_count := q.symbolic_var_counts v
          let q' := { q with
            symbolic_var_counts := fun a => if a = v then old_count + 1 else q.symbolic_var_counts a }
          -- if old_count >= threshold
          if t ≤ old_count then { q' with always_concretize := insert v q'.always_concretize }
          else q')
        u1

/-- One entry of the native mutation linked list (`MEM_PATCH` /
`mem_update_t`): the linked list itself is modelled as a Lean list. -/
structure MEM_PATCH where
  address : Nat
  length : Nat
deriving DecidableEq

/-- `self.uc.mem_read(address, length)`: the emulator's memory is a byte
function, frozen once the emulator has stopped. -/
def uc_mem_read (emu : Nat → Nat) (address length : Nat) : List Nat :=
  (List.range length).map fun i => emu (address + i)

/-- `self.state.memory.store(address, s)` over a byte-function model of the
symbolic memory. -/
def memory_store (m : Nat → Nat) (address : Nat) (s : List Nat) : Nat → Nat :=
  fun a => if address ≤ a ∧ a < address + s.length then s.getD (a - address) 0 else m a

/-- One iteration of the mutation walk in `Unicorn.finish` (lines 964-978):
entries inside the fake GDT range `[0x1000, 0x2000)` are discarded, others
are read back from emulator memory and stored. -/
def sync_one (emu : Nat → Nat) (m : Nat → Nat) (update : MEM_PATCH) : Nat → Nat :=
  if 0x1000 ≤ update.address ∧ update.address < 0x2000 then m
  else memory_store m update.address (uc_mem_read emu update.address update.length)

/-- The whole mutation-replay part of `Unicorn.finish`: walk the linked list
in order, then free it exactly once (`_UC_NATIVE.destroy(head)`); the second
component counts the free calls. -/
def finish_sync (emu : Nat → Nat) (head : List MEM_PATCH) (m : Nat → Nat) :
    (Nat → Nat) × Nat :=
  (head.foldl (sync_one emu) m, 1)

/-- The double → 80-bit-extended conversion of `Unicorn.set_regs`
(lines 1130-1149), for one 64-bit value `val`.  Returns the pair
`(exponent-word, mantissa)` passed to `uc.reg_write`.  Bit operations on the
64-bit value are written with division/remainder:
`bool(val & 0x8000000000000000)` is `val / 2^63 % 2`,
`(val & 0x7FF0000000000000) >> 52` is `val / 2^52 % 2^11`, and
`val & 0x000FFFFFFFFFFFFF` is `val % 2^52`.  The source computes the rebias
as `exponent - 1023 + 16383` over unbounded ints; `exponent + 16383 - 1023`
is the same value and stays in `Nat`.  `mantissa << 11 | 0x8000000000000000`
is `mantissa * 2^11 + 2^63` (the shifted mantissa is below bit 63), and
`exponent |= 0x8000` is `+ 2^15` (the exponent is below `2^15`). -/
def double_to_fp80 (val : Nat) : Nat × Nat :=
  let sign := val / 2 ^ 63 % 2
  let exponent := val / 2 ^ 52 % 2 ^ 11
  let mantissa := val % 2 ^ 52
  let em : Nat × Nat :=
    if exponent ≠ 0 ∧ exponent ≠ 0x7FF then
      -- normal value
      (exponent + 16383 - 1023, mantissa * 2 ^ 11 + 2 ^ 63)
    else if exponent = 0 then
      -- zero or subnormal value: mantissa is cleared
      (exponent, 0)
    else
      -- nan or infinity
      (0x7FFF, if mantissa ≠ 0 then 2 ^ 63 else 0xFFFFFFFFFFFFFFFF)
  (if sign = 1 then em.1 + 2 ^ 15 else em.1, em.2)

/-- The 80-bit-extended → double conversion of `Unicorn.get_regs`
(lines 1272-1297).  `exponent` is the 16-bit exponent word (sign bit
included), `mantissa` the 64-bit mantissa.  The rebias
`exponent - 16383 + 1023` can go negative, so it is computed in `Int`
exactly as in the source; `(mantissa >> 11) & 0xFFFFFFFFFFFFF` is
`mantissa / 2^11 % 2^52`, and the three or-ed fields are disjoint, so the
final assembly is a sum. -/
def fp80_to_double (exponent mantissa : Nat) : Nat :=
  let sign := exponent / 2 ^ 15 % 2
  let e0 : Nat := exponent % 2 ^ 15
  let em : Nat × Nat :=
    if e0 ≠ 0 ∧ e0 ≠ 0x7FFF then
      -- normal value
      let e1 : Int := (e0 : Int) - 16383 + 1023
      if e1 ≤ 0 then (0, 0)                 -- underflow to zero
      else if 0x7FF ≤ e1 then (0x7FF, 0)    -- overflow to infinity
      else (e1.toNat, mantissa)
    else if e0 = 0 then
      -- zero or subnormal value
      (0, 0)
    else
      -- nan or infinity
      (0x7FF, if mantissa ≠ 0 then 0xFFFF else mantissa)
  (if sign = 1 then 2 ^ 63 else 0) + em.1 * 2 ^ 52 + em.2 / 2 ^ 11 % 2 ^ 52

/-! ### Emulator handle pool (`Uniwrapper`, the `uc` property, `destroy`) -/

/-- The source `STOP` codes (class `STOP`, lines 45-57). -/
def STOP_NORMAL : Nat := 0
def STOP_STOPPOINT : Nat := 1
def STOP_SYMBOLIC_MEM : Nat := 2
def STOP_SYMBOLIC_REG : Nat := 3
def STOP_ERROR : Nat := 4
def STOP_SYSCALL : Nat := 5
def STOP_EXECNONE : Nat := 6
def STOP_ZEROPAGE : Nat := 7
def STOP_NOSTART : Nat := 8
def STOP_SEGFAULT : Nat := 9
def STOP_ZERO_DIV : Nat := 10
def STOP_NODECODE : Nat := 11

/-- A `Uniwrapper` instance: `gen` is a construction stamp (the counter value
at construction), distinguishing distinct instances; `id` is the reuse id
stamped by the `uc` property; `mem_resets` counts `reset()` calls (which
unmap all tracked regions) and `hook_resets` counts `hook_reset()` calls. -/
structure Uniwrapper where
  gen : Nat
  arch : Nat
  cache_key : Nat
  id : Nat
  mem_resets : Nat
  hook_resets : Nat
deriving DecidableEq

/-- The thread-local slot `_unicorn_tls.uc` together with the plugin's
`_unicount` and the global `_unicounter` (its next value). -/
structure TLSState where
  uc : Option Uniwrapper
  unicount : Nat
  counter : Nat
deriving DecidableEq

/-- The architecture code used for MIPS32: `Unicorn._reuse_unicorn` is
`self.state.arch.name != "MIPS32"`. -/
def mips32_arch : Nat := 1

def _reuse_unicorn (arch : Nat) : Bool := arch ≠ mips32_arch

/-- The `uc` property (lines 472-495): draw a fresh id; rebuild the handle if
the slot is empty or the architecture/cache key differ; on an id mismatch
rebuild (no-reuse architectures) or `reset()`; stamp the new id on both the
handle and the plugin. -/
def uc_property (arch cache_key : Nat) (s : TLSState) : Uniwrapper × TLSState :=
  let new_id := s.counter
  let h : Uniwrapper :=
    match s.uc with
    | none => ⟨new_id, arch, cache_key, 0, 0, 0⟩
    | some h =>
      if h.arch ≠ arch ∨ h.cache_key ≠ cache_key then ⟨new_id, arch, cache_key, 0, 0, 0⟩
      else if h.id ≠ s.unicount then
        if _reuse_unicorn arch = false then ⟨new_id, arch, cache_key, 0, 0, 0⟩
        else { h with mem_resets := h.mem_resets + 1 }  -- _unicorn_tls.uc.reset()
      else h
  let h := { h with id := new_id }
  (h, { uc := some h, unicount := new_id, counter := s.counter + 1 })

/-- `Unicorn.delete_uc` (lines 497-499): `_unicorn_tls.uc = None`. -/
def delete_uc (s : TLSState) : TLSState := { s with uc := none }

/-- `Unicorn.destroy` (lines 1053-1068).  `_UC_NATIVE.unhook` and
`_UC_NATIVE.dealloc` act only on the native state and are not part of the
thread-local model.  The steps that touch the handle are: `self.uc.hook_reset()`
(a `uc` property access followed by a hook reset), the conditional
`delete_uc()` for stop reasons outside the four benign ones, and the final
`self.uc.reset()` (another property access — which rebuilds a fresh handle if
the slot was just cleared — followed by a memory reset). -/
def Unicorn.destroy (arch cache_key stop_reason : Nat) (s : TLSState) : TLSState :=
  let r1 := uc_property arch cache_key s
  let s2 := { r1.2 with uc := some { r1.1 with hook_resets := r1.1.hook_resets + 1 } }
  let s3 :=
    if stop_reason ∉ [STOP_NORMAL, STOP_STOPPOINT, STOP_SYMBOLIC_MEM, STOP_SYMBOLIC_REG]
    then delete_uc s2 else s2
  let r4 := uc_property arch cache_key s3
  { r4.2 with uc := some { r4.1 with mem_resets := r4.1.mem_resets + 1 } }

/-! ### Helper lemmas about the Python `max`/`min` folds -/

lemma le_foldl_max (x : Nat) (l : List Nat) : x ≤ l.foldl max x := by
  induction l generalizing x with
  | nil => exact le_rfl
  | cons a t ih => exact le_trans (le_max_left x a) (ih (max x a))

lemma mem_le_foldl_max {y : Nat} (x : Nat) {l : List Nat} (h : y ∈ l) :
    y ≤ l.foldl max x := by
  induction l generalizing x with
  | nil => cases h
  | cons a t ih =>
    rcases List.mem_cons.mp h with rfl | hmem
    · exact le_trans (le_max_right x y) (le_foldl_max _ t)
    · exact ih (max x a) hmem

lemma self_le_gen_max (x o : Nat) (os : List Nat) : x ≤ gen_max x o os :=
  le_max_left _ _

lemma head_le_gen_max (x o : Nat) (os : List Nat) : o ≤ gen_max x o os :=
  le_trans (le_foldl_max o os) (le_max_right _ _)

lemma mem_le_gen_max (x o : Nat) {y : Nat} {os : List Nat} (h : y ∈ os) :
    y ≤ gen_max x o os :=
  le_trans (mem_le_foldl_max o h) (le_max_right _ _)

lemma py_min_fold_le_of_ok {l : List (Option Nat)} {acc : Option Nat} {r : Nat}
    (h : py_min_fold acc l = .ok (some r)) :
    (∀ a, acc = some a → r ≤ a) ∧ (∀ z ∈ l, ∀ y, z = some y → r ≤ y) := by
  induction l generalizing acc with
  | nil =>
    refine ⟨fun a ha => ?_, fun z hz => (List.not_mem_nil z hz).elim⟩
    simp only [py_min_fold] at h
    rw [ha] at h
    cases h
    exact le_rfl
  | cons z t ih =>
    match acc, z with
    | none, _ => simp [py_min_fold] at h
    | some a, none => simp [py_min_fold] at h
    | some a, some b =>
      have h' : py_min_fold (some (min a b)) t = .ok (some r) := h
      obtain ⟨hacc, hrest⟩ := ih h'
      have hr : r ≤ min a b := hacc _ rfl
      refine ⟨fun a' ha' => ?_, fun z' hz' y hy => ?_⟩
      · cases ha'
        exact le_trans hr (min_le_left _ _)
      · rcases List.mem_cons.mp hz' with rfl | hmem
        · cases hy
          exact le_trans hr (min_le_right _ _)
        · exact hrest z' hmem y hy

lemma py_min_fold_all_some_of_ok {l : List (Option Nat)} {acc : Option Nat} {r : Nat}
    (h : py_min_fold acc l = .ok (some r)) :
    acc ≠ none ∧ ∀ z ∈ l, z ≠ none := by
  induction l generalizing acc with
  | nil =>
    simp only [py_min_fold] at h
    cases h
    exact ⟨Option.some_ne_none r, fun z hz => (List.not_mem_nil z hz).elim⟩
  | cons z t ih =>
    match acc, z with
    | none, _ => simp [py_min_fold] at h
    | some a, none => simp [py_min_fold] at h
    | some a, some b =>
      obtain ⟨_, hrest⟩ := ih h
      refine ⟨Option.some_ne_none a, fun z' hz' => ?_⟩
      rcases List.mem_cons.mp hz' with rfl | hmem
      · exact Option.some_ne_none b
      · exact hrest z' hmem

lemma py_min_fold_ok_of_all_some {l : List (Option Nat)} (a : Nat)
    (hl : ∀ z ∈ l, z ≠ none) :
    ∃ r, py_min_fold (some a) l = .ok (some r) := by
  induction l generalizing a with
  | nil => exact ⟨a, rfl⟩
  | cons z t ih =>
    match z, hl z (List.mem_cons_self z t) with
    | none, hz => exact absurd rfl hz
    | some b, _ =>
      obtain ⟨r, hr⟩ := ih (min a b) (fun z' hz' => hl z' (List.mem_cons_of_mem _ hz'))
      exact ⟨r, hr⟩

lemma merge_thr_le_of_ok {x : Option Nat} {l : List (Option Nat)} {r : Nat}
    (h : merge_thr x l = .ok r) :
    (∀ a, x = some a → r ≤ a) ∧ (∀ z ∈ l, ∀ y, z = some y → r ≤ y) := by
  match l with
  | [] => simp [merge_thr, py_min_gen] at h
  | o :: os =>
    simp only [merge_thr, py_min_gen] at h
    rcases hg : py_min_fold o os with e | inner
    · rw [hg] at h; cases h
    · rw [hg] at h
      match x, inner, h with
      | some a, some b, h =>
        have hr : r = min a b := by
          simpa [py_min2] using h.symm
        obtain ⟨hacc, hrest⟩ := py_min_fold_le_of_ok hg
        subst hr
        refine ⟨fun a' ha' => ?_, fun z hz y hy => ?_⟩
        · cases ha'
          exact min_le_left _ _
        · rcases List.mem_cons.mp hz with rfl | hmem
          · cases hy
            exact le_trans (min_le_right _ _) (hacc _ rfl)
          · exact le_trans (min_le_right _ _) (hrest z hmem y hy)

lemma merge_thr_all_some_of_ok {x : Option Nat} {l : List (Option Nat)} {r : Nat}
    (h : merge_thr x l = .ok r) :
    x ≠ none ∧ ∀ z ∈ l, z ≠ none := by
  match l with
  | [] => simp [merge_thr, py_min_gen] at h
  | o :: os =>
    simp only [merge_thr, py_min_gen] at h
    rcases hg : py_min_fold o os with e | inner
    · rw [hg] at h; cases h
    · rw [hg] at h
      match x, inner, h with
      | some a, some b, h =>
        obtain ⟨hacc, hrest⟩ := py_min_fold_all_some_of_ok hg
        refine ⟨Option.some_ne_none a, fun z hz => ?_⟩
        rcases List.mem_cons.mp hz with rfl | hmem
        · exact hacc
        · exact hrest z hmem

lemma merge_thr_ok_of_all_some {x : Option Nat} {l : List (Option Nat)}
    (hne : l ≠ []) (hx : x ≠ none) (hl : ∀ z ∈ l, z ≠ none) :
    ∃ r, merge_thr x l = .ok r := by
  match l with
  | [] => exact (hne rfl).elim
  | o :: os =>
    match x, hx, o, hl o (List.mem_cons_self o os) with
    | none, hx', _, _ => exact absurd rfl hx'
    | some a, _, none, ho => exact absurd rfl ho
    | some a, _, some b, _ =>
      obtain ⟨r0, hr0⟩ :=
        py_min_fold_ok_of_all_some b (fun z hz => hl z (List.mem_cons_of_mem _ hz))
      exact ⟨min a r0, by simp [merge_thr, py_min_gen, hr0, py_min2]⟩

lemma merge_thr_none_of_error {x : Option Nat} {l : List (Option Nat)} {e : String}
    (hne : l ≠ []) (h : merge_thr x l = .error e) :
    x = none ∨ ∃ z ∈ l, z = none := by
  by_contra hc
  push_neg at hc
  obtain ⟨r, hr⟩ := merge_thr_ok_of_all_some hne hc.1 hc.2
  rw [hr] at h
  cases h

/-! ### Concrete fixtures (the `__init__` defaults, lines 257-352) -/

/-- A plugin exactly as built by `Unicorn.__init__()` with all-default
arguments (and cache key / unicount 0). -/
def u_base : Unicorn :=
  { cooldown_nonunicorn_blocks := 100
    cooldown_symbolic_registers := 100
    cooldown_symbolic_memory := 100
    cooldown_stop_point := 1
    countdown_nonunicorn_blocks := 0
    countdown_symbolic_registers := 0
    countdown_symbolic_memory := 0
    countdown_stop_point := 0
    concretization_threshold_memory := none
    concretization_threshold_registers := none
    concretization_threshold_instruction := none
    always_concretize := ∅
    never_concretize := ∅
    concretize_at := ∅
    _concretized_asts := ∅
    symbolic_var_counts := fun _ => 0
    symbolic_inst_counts := fun _ => 0
    syscall_hooks := []
    cache_key := 0
    _unicount := 0
    max_steps := 1000000
    _uc_state := none
    transmit_addr := none
    _uncache_pages := [] }

def u_stop5 : Unicorn := { u_base with cooldown_stop_point := 5 }

def p2 : Unicorn :=
  { u_base with
      always_concretize := {10}
      _concretized_asts := {4, 6}
      concretization_threshold_memory := some 5
      concretization_threshold_registers := some 5
      concretization_threshold_instruction := some 5 }

def q2 : Unicorn :=
  { u_base with
      always_concretize := {11}
      never_concretize := {12}
      concretize_at := {13}
      _concretized_asts := {4, 5}
      concretization_threshold_memory := some 3
      concretization_threshold_registers := some 3
      concretization_threshold_instruction := some 3 }

def p4 : Unicorn := { u_base with cooldown_nonunicorn_blocks := 7 }

def q4 : Unicorn := { u_base with cooldown_nonunicorn_blocks := 9 }

/-! ### C4: copy semantics -/

/-- C4 counterexample: `copy()` does not pass `cooldown_stop_point` to the
constructor, so a plugin with `cooldown_stop_point = 5` yields a copy with
`cooldown_stop_point = 1` (the default), contradicting the claim that all
cooldown settings — including the stop-point one — equal the original's. -/
theorem copy_cooldown_stop_point_reset :
    (u_stop5.copy 0).cooldown_stop_point = 1 ∧ u_stop5.cooldown_stop_point = 5 :=
  ⟨rfl, rfl⟩

/-- C4 (amended): `copy()` yields a plugin whose cooldown settings other than
the stop-point one, and all current countdowns, equal the original's; the
stop-point cooldown setting is reset to the constructor default `1`.  The
cache key equals the original's, the syscall-hook map, policy sets, counters
and uncache-page list are (value-equal) copies, `transmit_addr` and
`max_steps` are preserved, the native state is null, and the copy draws a
fresh unicount. -/
theorem copy_preserves_fields (u : Unicorn) (fresh : Nat) :
    (u.copy fresh).cooldown_nonunicorn_blocks = u.cooldown_nonunicorn_blocks ∧
    (u.copy fresh).cooldown_symbolic_registers = u.cooldown_symbolic_registers ∧
    (u.copy fresh).cooldown_symbolic_memory = u.cooldown_symbolic_memory ∧
    (u.copy fresh).cooldown_stop_point = 1 ∧
    (u.copy fresh).countdown_nonunicorn_blocks = u.countdown_nonunicorn_blocks ∧
    (u.copy fresh).countdown_symbolic_registers = u.countdown_symbolic_registers ∧
    (u.copy fresh).countdown_symbolic_memory = u.countdown_symbolic_memory ∧
    (u.copy fresh).countdown_stop_point = u.countdown_stop_point ∧
    (u.copy fresh).cache_key = u.cache_key ∧
    (u.copy fresh).syscall_hooks = u.syscall_hooks ∧
    (u.copy fresh).symbolic_var_counts = u.symbolic_var_counts ∧
    (u.copy fresh).symbolic_inst_counts = u.symbolic_inst_counts ∧
    (u.copy fresh).always_concretize = u.always_concretize ∧
    (u.copy fresh).never_concretize = u.never_concretize ∧
    (u.copy fresh).concretize_at = u.concretize_at ∧
    (u.copy fresh)._concretized_asts = u._concretized_asts ∧
    (u.copy fresh)._uncache_pages = u._uncache_pages ∧
    (u.copy fresh).transmit_addr = u.transmit_addr ∧
    (u.copy fresh).max_steps = u.max_steps ∧
    (u.copy fresh)._uc_state = none ∧
    (u.copy fresh)._unicount = fresh :=
  ⟨rfl, rfl, rfl, rfl, rfl, rfl, rfl, rfl, rfl, rfl, rfl, rfl, rfl, rfl, rfl,
    rfl, rfl, rfl, rfl, rfl, rfl⟩

/-! ### C2: the `union()` / `intersection()` no-ops in merge -/

/-- C2: the four trailing set operations in `Unicorn.merge` call the
non-mutating `set.union` / `set.intersection` and discard the result, so
after a successful merge the receiver's policy sets and concretized-AST
record are unchanged — not the claimed union/intersection (shown here on
plugins where those differ). -/
theorem merge_sets_not_updated :
    ((p2.merge [q2] 0).2 = none) ∧
    (p2.merge [q2] 0).1.always_concretize = p2.always_concretize ∧
    (p2.merge [q2] 0).1.always_concretize ≠ p2.always_concretize ∪ q2.always_concretize ∧
    (p2.merge [q2] 0).1.never_concretize = p2.never_concretize ∧
    (p2.merge [q2] 0).1.never_concretize ≠ p2.never_concretize ∪ q2.never_concretize ∧
    (p2.merge [q2] 0).1.concretize_at = p2.concretize_at ∧
    (p2.merge [q2] 0).1.concretize_at ≠ p2.concretize_at ∪ q2.concretize_at ∧
    (p2.merge [q2] 0).1._concretized_asts = p2._concretized_asts ∧
    (p2.merge [q2] 0).1._concretized_asts ≠ p2._concretized_asts ∩ q2._concretized_asts := by
  decide

/-! ### C3: monotonicity of cooldowns/countdowns and thresholds under merge -/

/-- C3: whenever `merge` completes (raises no exception), every resulting
cooldown setting and current countdown is ≥ the corresponding value of every
merged plugin (the receiver included), and every resulting concretization
threshold is ≤ every merged plugin's threshold. -/
theorem merge_cooldown_monotone (p : Unicorn) (os : List Unicorn) (fresh : Nat)
    (h : (p.merge os fresh).2 = none) :
    ∀ q ∈ p :: os,
      q.cooldown_nonunicorn_blocks ≤ (p.merge os fresh).1.cooldown_nonunicorn_blocks ∧
      q.cooldown_symbolic_registers ≤ (p.merge os fresh).1.cooldown_symbolic_registers ∧
      q.cooldown_symbolic_memory ≤ (p.merge os fresh).1.cooldown_symbolic_memory ∧
      q.countdown_nonunicorn_blocks ≤ (p.merge os fresh).1.countdown_nonunicorn_blocks ∧
      q.countdown_symbolic_registers ≤ (p.merge os fresh).1.countdown_symbolic_registers ∧
      q.countdown_symbolic_memory ≤ (p.merge os fresh).1.countdown_symbolic_memory ∧
      q.countdown_stop_point ≤ (p.merge os fresh).1.countdown_stop_point ∧
      (∀ x y, (p.merge os fresh).1.concretization_threshold_memory = some x →
        q.concretization_threshold_memory = some y → x ≤ y) ∧
      (∀ x y, (p.merge os fresh).1.concretization_threshold_registers = some x →
        q.concretization_threshold_registers = some y → x ≤ y) ∧
      (∀ x y, (p.merge os fresh).1.concretization_threshold_instruction = some x →
        q.concretization_threshold_instruction = some y → x ≤ y) := by
  match os with
  | [] => simp [Unicorn.merge] at h
  | o :: t =>
    intro q hq
    rcases h1 : merge_thr p.concretization_threshold_memory
        (o.concretization_threshold_memory :: t.map (·.concretization_threshold_memory)) with e1 | tm
    · simp [Unicorn.merge, h1] at h
    rcases h2 : merge_thr p.concretization_threshold_registers
        (o.concretization_threshold_registers :: t.map (·.concretization_threshold_registers)) with e2 | trg
    · simp [Unicorn.merge, h1, h2] at h
    rcases h3 : merge_thr p.concretization_threshold_instruction
        (o.concretization_threshold_instruction :: t.map (·.concretization_threshold_instruction)) with e3 | ti
    · simp [Unicorn.merge, h1, h2, h3] at h
    have hr1 : (p.merge (o :: t) fresh).1.cooldown_nonunicorn_blocks
        = gen_max p.cooldown_nonunicorn_blocks o.cooldown_nonunicorn_blocks
          (t.map (·.cooldown_nonunicorn_blocks)) := by
      simp [Unicorn.merge, h1, h2, h3]
    have hr2 : (p.merge (o :: t) fresh).1.cooldown_symbolic_registers
        = gen_max p.cooldown_symbolic_registers o.cooldown_symbolic_registers
          (t.map (·.cooldown_symbolic_registers)) := by
      simp [Unicorn.merge, h1, h2, h3]
    have hr3 : (p.merge (o :: t) fresh).1.cooldown_symbolic_memory
        = gen_max p.cooldown_symbolic_memory o.cooldown_symbolic_memory
          (t.map (·.cooldown_symbolic_memory)) := by
      simp [Unicorn.merge, h1, h2, h3]
    have hr4 : (p.merge (o :: t) fresh).1.countdown_nonunicorn_blocks
        = gen_max p.countdown_nonunicorn_blocks o.countdown_nonunicorn_blocks
          (t.map (·.countdown_nonunicorn_blocks)) := by
      simp [Unicorn.merge, h1, h2, h3]
    have hr5 : (p.merge (o :: t) fresh).1.countdown_symbolic_registers
        = gen_max p.countdown_symbolic_registers o.countdown_symbolic_registers
          (t.map (·.countdown_symbolic_registers)) := by
      simp [Unicorn.merge, h1, h2, h3]
    have hr6 : (p.merge (o :: t) fresh).1.countdown_symbolic_memory
        = gen_max p.countdown_symbolic_memory o.countdown_symbolic_memory
          (t.map (·.countdown_symbolic_memory)) := by
      simp [Unicorn.merge, h1, h2, h3]
    have hr7 : (p.merge (o :: t) fresh).1.countdown_stop_point
        = gen_max p.countdown_stop_point o.countdown_stop_point
          (t.map (·.countdown_stop_point)) := by
      simp [Unicorn.merge, h1, h2, h3]
    have ht1 : (p.merge (o :: t) fresh).1.concretization_threshold_memory = some tm := by
      simp [Unicorn.merge, h1, h2, h3]
    have ht2 : (p.merge (o :: t) fresh).1.concretization_threshold_registers = some trg := by
      simp [Unicorn.merge, h1, h2, h3]
    have ht3 : (p.merge (o :: t) fresh).1.concretization_threshold_instruction = some ti := by
      simp [Unicorn.merge, h1, h2, h3]
    rw [hr1, hr2, hr3, hr4, hr5, hr6, hr7]
    have thr_bound : ∀ (f : Unicorn → Option Nat) (r : Nat),
        merge_thr (f p) (f o :: t.map f) = .ok r → ∀ y, f q = some y → r ≤ y := by
      intro f r hok y hy
      rcases List.mem_cons.mp hq with rfl | hq'
      · exact (merge_thr_le_of_ok hok).1 y hy
      · exact (merge_thr_le_of_ok hok).2 (f q) (List.mem_map_of_mem f hq') y hy
    refine ⟨?_, ?_, ?_, ?_, ?_, ?_, ?_, ?_, ?_, ?_⟩
    · rcases List.mem_cons.mp hq with rfl | hq'
      · exact self_le_gen_max _ _ _
      · rcases List.mem_cons.mp hq' with rfl | hq''
        · exact head_le_gen_max _ _ _
        · exact mem_le_gen_max _ _ (List.mem_map_of_mem _ hq'')
    · rcases List.mem_cons.mp hq with rfl | hq'
      · exact self_le_gen_max _ _ _
      · rcases List.mem_cons.mp hq' with rfl | hq''
        · exact head_le_gen_max _ _ _
        · exact mem_le_gen_max _ _ (List.mem_map_of_mem _ hq'')
    · rcases List.mem_cons.mp hq with rfl | hq'
      · exact self_le_gen_max _ _ _
      · rcases List.mem_cons.mp hq' with rfl | hq''
        · exact head_le_gen_max _ _ _
        · exact mem_le_gen_max _ _ (List.mem_map_of_mem _ hq'')
    · rcases List.mem_cons.mp hq with rfl | hq'
      · exact self_le_gen_max _ _ _
      · rcases List.mem_cons.mp hq' with rfl | hq''
        · exact head_le_gen_max _ _ _
        · exact mem_le_gen_max _ _ (List.mem_map_of_mem _ hq'')
    · rcases List.mem_cons.mp hq with rfl | hq'
      · exact self_le_gen_max _ _ _
      · rcases List.mem_cons.mp hq' with rfl | hq''
        · exact head_le_gen_max _ _ _
        · exact mem_le_gen_max _ _ (List.mem_map_of_mem _ hq'')
    · rcases List.mem_cons.mp hq with rfl | hq'
      · exact self_le_gen_max _ _ _
      · rcases List.mem_cons.mp hq' with rfl | hq''
        · exact head_le_gen_max _ _ _
        · exact mem_le_gen_max _ _ (List.mem_map_of_mem _ hq'')
    · rcases List.mem_cons.mp hq with rfl | hq'
      · exact self_le_gen_max _ _ _
      · rcases List.mem_cons.mp hq' with rfl | hq''
        · exact head_le_gen_max _ _ _
        · exact mem_le_gen_max _ _ (List.mem_map_of_mem _ hq'')
    · intro x y hx hy
      rw [ht1] at hx
      cases hx
      exact thr_bound (·.concretization_threshold_memory) tm h1 y hy
    · intro x y hx hy
      rw [ht2] at hx
      cases hx
      exact thr_bound (·.concretization_threshold_registers) trg h2 y hy
    · intro x y hx hy
      rw [ht3] at hx
      cases hx
      exact thr_bound (·.concretization_threshold_instruction) ti h3 y hy

/-- C3 witness: a concrete successful merge, with the theorem applied to the
non-receiver plugin. -/
theorem merge_cooldown_monotone_witness :
    ((p2.merge [q2] 0).2 = none) ∧
    q2.cooldown_nonunicorn_blocks ≤ (p2.merge [q2] 0).1.cooldown_nonunicorn_blocks := by
  have h : (p2.merge [q2] 0).2 = none := by decide
  exact ⟨h, (merge_cooldown_monotone p2 [q2] 0 h q2
    (List.mem_cons_of_mem _ (List.mem_cons_self q2 []))).1⟩

/-- The fields of the merge receiver that are identical in all four outcomes
of `Unicorn.merge` on a nonempty `others`: the cooldown/countdown maxima and
the refreshed `_unicount` are applied before any threshold `min` can raise,
and the policy sets and the concretized-AST record are never written at all. -/
lemma merge_invariant_fields (p o : Unicorn) (t : List Unicorn) (fresh : Nat) :
    (p.merge (o :: t) fresh).1.cooldown_nonunicorn_blocks
      = gen_max p.cooldown_nonunicorn_blocks o.cooldown_nonunicorn_blocks
        (t.map (·.cooldown_nonunicorn_blocks)) ∧
    (p.merge (o :: t) fresh).1.cooldown_symbolic_registers
      = gen_max p.cooldown_symbolic_registers o.cooldown_symbolic_registers
        (t.map (·.cooldown_symbolic_registers)) ∧
    (p.merge (o :: t) fresh).1.cooldown_symbolic_memory
      = gen_max p.cooldown_symbolic_memory o.cooldown_symbolic_memory
        (t.map (·.cooldown_symbolic_memory)) ∧
    (p.merge (o :: t) fresh).1.countdown_nonunicorn_blocks
      = gen_max p.countdown_nonunicorn_blocks o.countdown_nonunicorn_blocks
        (t.map (·.countdown_nonunicorn_blocks)) ∧
    (p.merge (o :: t) fresh).1.countdown_symbolic_registers
      = gen_max p.countdown_symbolic_registers o.countdown_symbolic_registers
        (t.map (·.countdown_symbolic_registers)) ∧
    (p.merge (o :: t) fresh).1.countdown_symbolic_memory
      = gen_max p.countdown_symbolic_memory o.countdown_symbolic_memory
        (t.map (·.countdown_symbolic_memory)) ∧
    (p.merge (o :: t) fresh).1.countdown_stop_point
      = gen_max p.countdown_stop_point o.countdown_stop_point
        (t.map (·.countdown_stop_point)) ∧
    (p.merge (o :: t) fresh).1.always_concretize = p.always_concretize ∧
    (p.merge (o :: t) fresh).1.never_concretize = p.never_concretize ∧
    (p.merge (o :: t) fresh).1.concretize_at = p.concretize_at ∧
    (p.merge (o :: t) fresh).1._concretized_asts = p._concretized_asts ∧
    (p.merge (o :: t) fresh).1._unicount = fresh := by
  rcases h1 : merge_thr p.concretization_threshold_memory
      (o.concretization_threshold_memory :: t.map (·.concretization_threshold_memory))
      with e1 | tm
  · simp [Unicorn.merge, h1]
  rcases h2 : merge_thr p.concretization_threshold_registers
      (o.concretization_threshold_registers :: t.map (·.concretization_threshold_registers))
      with e2 | trg
  · simp [Unicorn.merge, h1, h2]
  rcases h3 : merge_thr p.concretization_threshold_instruction
      (o.concretization_threshold_instruction :: t.map (·.concretization_threshold_instruction))
      with e3 | ti
  · simp [Unicorn.merge, h1, h2, h3]
  · simp [Unicorn.merge, h1, h2, h3]

/-- C10: merging raises a `TypeError` exactly when some merged plugin (the
receiver included) has a concretization threshold still at its default
`None`; the exception is raised while taking the threshold minima, after the
cooldown/countdown maxima and the `_unicount` refresh have already been
applied to the receiver, whose policy sets and concretized-AST record remain
untouched — a partially updated receiver. -/
theorem merge_threshold_typeerror (p : Unicorn) (os : List Unicorn) (fresh : Nat)
    (hne : os ≠ []) :
    ((p.merge os fresh).2 ≠ none ↔
      p.concretization_threshold_memory = none ∨
      p.concretization_threshold_registers = none ∨
      p.concretization_threshold_instruction = none ∨
      ∃ q ∈ os, q.concretization_threshold_memory = none ∨
        q.concretization_threshold_registers = none ∨
        q.concretization_threshold_instruction = none) ∧
    ((p.merge os fresh).2 ≠ none →
      (∀ q ∈ p :: os,
        q.cooldown_nonunicorn_blocks ≤ (p.merge os fresh).1.cooldown_nonunicorn_blocks ∧
        q.cooldown_symbolic_registers ≤ (p.merge os fresh).1.cooldown_symbolic_registers ∧
        q.cooldown_symbolic_memory ≤ (p.merge os fresh).1.cooldown_symbolic_memory ∧
        q.countdown_nonunicorn_blocks ≤ (p.merge os fresh).1.countdown_nonunicorn_blocks ∧
        q.countdown_symbolic_registers ≤ (p.merge os fresh).1.countdown_symbolic_registers ∧
        q.countdown_symbolic_memory ≤ (p.merge os fresh).1.countdown_symbolic_memory ∧
        q.countdown_stop_point ≤ (p.merge os fresh).1.countdown_stop_point) ∧
      (p.merge os fresh).1.always_concretize = p.always_concretize ∧
      (p.merge os fresh).1.never_concretize = p.never_concretize ∧
      (p.merge os fresh).1.concretize_at = p.concretize_at ∧
      (p.merge os fresh).1._concretized_asts = p._concretized_asts ∧
      (p.merge os fresh).1._unicount = fresh) := by
  match os with
  | [] => exact (hne rfl).elim
  | o :: t =>
    obtain ⟨i1, i2, i3, i4, i5, i6, i7, iA, iN, iC, iR, iU⟩ :=
      merge_invariant_fields p o t fresh
    have bound : ∀ q ∈ p :: o :: t,
        q.cooldown_nonunicorn_blocks ≤ (p.merge (o :: t) fresh).1.cooldown_nonunicorn_blocks ∧
        q.cooldown_symbolic_registers ≤ (p.merge (o :: t) fresh).1.cooldown_symbolic_registers ∧
        q.cooldown_symbolic_memory ≤ (p.merge (o :: t) fresh).1.cooldown_symbolic_memory ∧
        q.countdown_nonunicorn_blocks ≤ (p.merge (o :: t) fresh).1.countdown_nonunicorn_blocks ∧
        q.countdown_symbolic_registers ≤ (p.merge (o :: t) fresh).1.countdown_symbolic_registers ∧
        q.countdown_symbolic_memory ≤ (p.merge (o :: t) fresh).1.countdown_symbolic_memory ∧
        q.countdown_stop_point ≤ (p.merge (o :: t) fresh).1.countdown_stop_point := by
      intro q hq
      rw [i1, i2, i3, i4, i5, i6, i7]
      rcases List.mem_cons.mp hq with rfl | hq'
      · exact ⟨self_le_gen_max _ _ _, self_le_gen_max _ _ _, self_le_gen_max _ _ _,
          self_le_gen_max _ _ _, self_le_gen_max _ _ _, self_le_gen_max _ _ _,
          self_le_gen_max _ _ _⟩
      rcases List.mem_cons.mp hq' with rfl | hq''
      · exact ⟨head_le_gen_max _ _ _, head_le_gen_max _ _ _, head_le_gen_max _ _ _,
          head_le_gen_max _ _ _, head_le_gen_max _ _ _, head_le_gen_max _ _ _,
          head_le_gen_max _ _ _⟩
      · exact ⟨mem_le_gen_max _ _ (List.mem_map_of_mem _ hq''),
          mem_le_gen_max _ _ (List.mem_map_of_mem _ hq''),
          mem_le_gen_max _ _ (List.mem_map_of_mem _ hq''),
          mem_le_gen_max _ _ (List.mem_map_of_mem _ hq''),
          mem_le_gen_max _ _ (List.mem_map_of_mem _ hq''),
          mem_le_gen_max _ _ (List.mem_map_of_mem _ hq''),
          mem_le_gen_max _ _ (List.mem_map_of_mem _ hq'')⟩
    have to_mem : ∀ (f : Unicorn → Option Nat),
        (∃ z ∈ (f o :: t.map f), z = none) → ∃ q ∈ o :: t, f q = none := by
      intro f ⟨z, hz, hzn⟩
      subst hzn
      have : (none : Option Nat) ∈ (o :: t).map f := hz
      obtain ⟨q, hq, hfq⟩ := List.mem_map.mp this
      exact ⟨q, hq, hfq⟩
    have from_mem : ∀ (f : Unicorn → Option Nat) (q : Unicorn), q ∈ o :: t →
        f q = none → (none : Option Nat) ∈ (f o :: t.map f) := by
      intro f q hq hfq
      have : f q ∈ (o :: t).map f := List.mem_map_of_mem f hq
      rw [hfq] at this
      exact this
    refine ⟨⟨fun hne2 => ?_, fun hd => ?_⟩, fun hne2 => ⟨bound, iA, iN, iC, iR, iU⟩⟩
    · -- error implies a None threshold somewhere
      rcases h1 : merge_thr p.concretization_threshold_memory
          (o.concretization_threshold_memory :: t.map (·.concretization_threshold_memory))
          with e1 | tm
      · rcases merge_thr_none_of_error (List.cons_ne_nil _ _) h1 with hp | hex
        · exact Or.inl hp
        · exact Or.inr (Or.inr (Or.inr (by
            obtain ⟨q, hq, hfq⟩ := to_mem (·.concretization_threshold_memory) hex
            exact ⟨q, hq, Or.inl hfq⟩)))
      rcases h2 : merge_thr p.concretization_threshold_registers
          (o.concretization_threshold_registers :: t.map (·.concretization_threshold_registers))
          with e2 | trg
      · rcases merge_thr_none_of_error (List.cons_ne_nil _ _) h2 with hp | hex
        · exact Or.inr (Or.inl hp)
        · exact Or.inr (Or.inr (Or.inr (by
            obtain ⟨q, hq, hfq⟩ := to_mem (·.concretization_threshold_registers) hex
            exact ⟨q, hq, Or.inr (Or.inl hfq)⟩)))
      rcases h3 : merge_thr p.concretization_threshold_instruction
          (o.concretization_threshold_instruction :: t.map (·.concretization_threshold_instruction))
          with e3 | ti
      · rcases merge_thr_none_of_error (List.cons_ne_nil _ _) h3 with hp | hex
        · exact Or.inr (Or.inr (Or.inl hp))
        · exact Or.inr (Or.inr (Or.inr (by
            obtain ⟨q, hq, hfq⟩ := to_mem (·.concretization_threshold_instruction) hex
            exact ⟨q, hq, Or.inr (Or.inr hfq)⟩)))
      · exact absurd (by simp [Unicorn.merge, h1, h2, h3]) hne2
    · -- a None threshold somewhere implies an error
      rcases h1 : merge_thr p.concretization_threshold_memory
          (o.concretization_threshold_memory :: t.map (·.concretization_threshold_memory))
          with e1 | tm
      · simp [Unicorn.merge, h1]
      rcases h2 : merge_thr p.concretization_threshold_registers
          (o.concretization_threshold_registers :: t.map (·.concretization_threshold_registers))
          with e2 | trg
      · simp [Unicorn.merge, h1, h2]
      rcases h3 : merge_thr p.concretization_threshold_instruction
          (o.concretization_threshold_instruction :: t.map (·.concretization_threshold_instruction))
          with e3 | ti
      · simp [Unicorn.merge, h1, h2, h3]
      · exfalso
        obtain ⟨hp1, hl1⟩ := merge_thr_all_some_of_ok h1
        obtain ⟨hp2, hl2⟩ := merge_thr_all_some_of_ok h2
        obtain ⟨hp3, hl3⟩ := merge_thr_all_some_of_ok h3
        rcases hd with hp | hp | hp | ⟨q, hq, hfq | hfq | hfq⟩
        · exact hp1 hp
        · exact hp2 hp
        · exact hp3 hp
        · exact hl1 _ (from_mem _ q hq hfq) rfl
        · exact hl2 _ (from_mem _ q hq hfq) rfl
        · exact hl3 _ (from_mem _ q hq hfq) rfl

/-- C10 witness: merging a default-constructed plugin (thresholds `None`)
raises, with the cooldown maxima applied and the policy sets untouched. -/
theorem merge_threshold_typeerror_witness :
    ((p4.merge [q4] 0).2 ≠ none) ∧
    (p4.merge [q4] 0).1.always_concretize = p4.always_concretize := by
  have H := merge_threshold_typeerror p4 [q4] 0 (by simp)
  have herr : (p4.merge [q4] 0).2 ≠ none := H.1.mpr (Or.inl rfl)
  exact ⟨herr, (H.2 herr).2.1⟩

/-! ### C1: threshold promotion in `_report_symbolic_blocker` -/

/-- `N` successive reports of the same blocking value (free variables `[v]`)
at the same instruction address `ip`, with the threshold-concretization
option enabled. -/
def report_n (ip v : Nat) (w : Side) (u : Unicorn) : Nat → Unicorn
  | 0 => u
  | N + 1 => _report_symbolic_blocker true ip (report_n ip v w u N) [v] w

/-- Effect of a single report on the counters, the policy sets and the
(unmodified) thresholds. -/
lemma report_step (ip v : Nat) (w : Side) (u : Unicorn) (T Ti : Nat)
    (hT : (if w = Side.mem then u.concretization_threshold_memory
      else u.concretization_threshold_registers) = some T)
    (hTi : u.concretization_threshold_instruction = some Ti) :
    (_report_symbolic_blocker true ip u [v] w).symbolic_var_counts v
      = u.symbolic_var_counts v + 1 ∧
    (_report_symbolic_blocker true ip u [v] w).symbolic_inst_counts ip
      = u.symbolic_inst_counts ip + 1 ∧
    (v ∈ (_report_symbolic_blocker true ip u [v] w).always_concretize ↔
      (v ∈ u.always_concretize ∨ T ≤ u.symbolic_var_counts v)) ∧
    (ip ∈ (_report_symbolic_blocker true ip u [v] w).concretize_at ↔
      (ip ∈ u.concretize_at ∨ Ti ≤ u.symbolic_inst_counts ip)) ∧
    (_report_symbolic_blocker true ip u [v] w).concretization_threshold_memory
      = u.concretization_threshold_memory ∧
    (_report_symbolic_blocker true ip u [v] w).concretization_threshold_registers
      = u.concretization_threshold_registers ∧
    (_report_symbolic_blocker true ip u [v] w).concretization_threshold_instruction
      = u.concretization_threshold_instruction := by
  cases w <;> simp only [if_pos, if_neg, reduceCtorEq, reduceIte] at hT <;>
    by_cases hi : Ti ≤ u.symbolic_inst_counts ip <;>
    by_cases hv : T ≤ u.symbolic_var_counts v <;>
    simp [_report_symbolic_blocker, hTi, hT, hi, hv, Finset.mem_insert]

/-- Invariant carried along the `N` reports. -/
lemma report_n_spec (ip v : Nat) (w : Side) (u0 : Unicorn) (T Ti : Nat)
    (hT : (if w = Side.mem then u0.concretization_threshold_memory
      else u0.concretization_threshold_registers) = some T)
    (hTi : u0.concretization_threshold_instruction = some Ti)
    (hv0 : u0.symbolic_var_counts v = 0) (hi0 : u0.symbolic_inst_counts ip = 0)
    (hmv : v ∉ u0.always_concretize) (hmi : ip ∉ u0.concretize_at) :
    ∀ N : Nat,
      (report_n ip v w u0 N).symbolic_var_counts v = N ∧
      (report_n ip v w u0 N).symbolic_inst_counts ip = N ∧
      (v ∈ (report_n ip v w u0 N).always_concretize ↔ T + 1 ≤ N) ∧
      (ip ∈ (report_n ip v w u0 N).concretize_at ↔ Ti + 1 ≤ N) ∧
      (if w = Side.mem then (report_n ip v w u0 N).concretization_threshold_memory
        else (report_n ip v w u0 N).concretization_threshold_registers) = some T ∧
      (report_n ip v w u0 N).concretization_threshold_instruction = some Ti := by
  intro N
  induction N with
  | zero =>
    refine ⟨hv0, hi0, ?_, ?_, hT, hTi⟩
    · simp [report_n, hmv]
    · simp [report_n, hmi]
  | succ N ih =>
    obtain ⟨c1, c2, c3, c4, c5, c6⟩ := ih
    obtain ⟨s1, s2, s3, s4, s5, s6, s7⟩ :=
      report_step ip v w (report_n ip v w u0 N) T Ti c5 c6
    refine ⟨?_, ?_, ?_, ?_, ?_, ?_⟩
    · show (_report_symbolic_blocker true ip (report_n ip v w u0 N) [v] w).symbolic_var_counts v = N + 1
      rw [s1, c1]
    · show (_report_symbolic_blocker true ip (report_n ip v w u0 N) [v] w).symbolic_inst_counts ip = N + 1
      rw [s2, c2]
    · show v ∈ (_report_symbolic_blocker true ip (report_n ip v w u0 N) [v] w).always_concretize ↔ T + 1 ≤ N + 1
      rw [s3, c3, c1]
      omega
    · show ip ∈ (_report_symbolic_blocker true ip (report_n ip v w u0 N) [v] w).concretize_at ↔ Ti + 1 ≤ N + 1
      rw [s4, c4, c2]
      omega
    · show (if w = Side.mem
          then (_report_symbolic_blocker true ip (report_n ip v w u0 N) [v] w).concretization_threshold_memory
          else (_report_symbolic_blocker true ip (report_n ip v w u0 N) [v] w).concretization_threshold_registers)
        = some T
      cases w <;> simp only [if_pos, if_neg, reduceCtorEq, reduceIte] at c5 ⊢ <;>
        [rw [s6, c5]; rw [s5, c5]]
    · show (_report_symbolic_blocker true ip (report_n ip v w u0 N) [v] w).concretization_threshold_instruction = some Ti
      rw [s7, c6]

def u1c : Unicorn := { u_base with concretization_threshold_memory := some 1 }

/-- C1 counterexample: with the memory threshold `T = 1`, after `N = 1`
memory-blocker report on variable `7` the claim demands
`7 ∈ always_concretize` (since `N ≥ T`), but the code adds the variable only
when its *previous* count reaches the threshold, so it is not promoted. -/
theorem report_symbolic_blocker_at_threshold_not_promoted :
    7 ∉ (_report_symbolic_blocker true 100 u1c [7] Side.mem).always_concretize ∧
    1 ≤ (1 : Nat) := by
  decide

/-- C1 (amended): with the threshold-concretization option enabled and the
relevant side's threshold set to `T`, after `N` reports of a blocker whose
value has the single free variable `v` (no other reports touching `v`,
counter starting at 0), `v ∈ always_concretize` iff `N ≥ T + 1` — i.e.
strictly more than `T` reports, one more than the claim stated; likewise the
instruction-level threshold `Ti` promotes the reported instruction address
into `concretize_at` iff `N ≥ Ti + 1`. -/
theorem report_symbolic_blocker_threshold_promotion
    (ip v T Ti N : Nat) (w : Side) (u0 : Unicorn)
    (hT : (if w = Side.mem then u0.concretization_threshold_memory
      else u0.concretization_threshold_registers) = some T)
    (hTi : u0.concretization_threshold_instruction = some Ti)
    (hv0 : u0.symbolic_var_counts v = 0) (hi0 : u0.symbolic_inst_counts ip = 0)
    (hmv : v ∉ u0.always_concretize) (hmi : ip ∉ u0.concretize_at) :
    (v ∈ (report_n ip v w u0 N).always_concretize ↔ T + 1 ≤ N) ∧
    (ip ∈ (report_n ip v w u0 N).concretize_at ↔ Ti + 1 ≤ N) := by
  obtain ⟨_, _, c3, c4, _, _⟩ := report_n_spec ip v w u0 T Ti hT hTi hv0 hi0 hmv hmi N
  exact ⟨c3, c4⟩

def u1w : Unicorn :=
  { u_base with
      concretization_threshold_memory := some 2
      concretization_threshold_instruction := some 3 }

/-- C1 witness: with memory threshold 2 and instruction threshold 3, after 3
reports variable 7 is promoted but address 100 is not yet. -/
theorem report_symbolic_blocker_threshold_promotion_witness :
    7 ∈ (report_n 100 7 Side.mem u1w 3).always_concretize ∧
    100 ∉ (report_n 100 7 Side.mem u1w 3).concretize_at := by
  have H := report_symbolic_blocker_threshold_promotion 100 7 2 3 3 Side.mem u1w
    (by decide) (by decide) (by decide) (by decide) (by decide) (by decide)
  exact ⟨H.1.mpr (by decide), fun hc => by have := H.2.mp hc; omega⟩

/-! ### C5: at most one aggressive-concretization constraint per identity -/

/-- A whole-lifetime sequence of `_concretize` calls on the plugin. -/
def concretize_run (ctx : PassCtx) (s : Sim) (ds : List AST) : Sim :=
  ds.foldl (fun s d => (_concretize ctx s d).2) s

lemma concretize_run_invariant (ctx : PassCtx) (ds : List AST) :
    ∀ s : Sim,
      (∀ i, s.constraints.count i = if i ∈ s.u._concretized_asts then 1 else 0) →
      ∀ i, (concretize_run ctx s ds).constraints.count i
        = if i ∈ (concretize_run ctx s ds).u._concretized_asts then 1 else 0 := by
  induction ds with
  | nil => intro s hs i; exact hs i
  | cons d t ih =>
    intro s hs i
    have hstep : ∀ j, (_concretize ctx s d).2.constraints.count j
        = if j ∈ (_concretize ctx s d).2.u._concretized_asts then 1 else 0 := by
      intro j
      by_cases hd : d.ident ∈ s.u._concretized_asts
      · simp only [_concretize, if_pos hd]
        exact hs j
      · simp only [_concretize, if_neg hd]
        by_cases hj : j = d.ident
        · subst hj
          have hz : s.constraints.count d.ident = 0 := by
            have hsj := hs d.ident
            rwa [if_neg hd] at hsj
          simp [List.count_append, hz, Finset.mem_insert]
        · have hsj := hs j
          simp [List.count_append, Finset.mem_insert, hj, hsj]
    exact ih ((_concretize ctx s d).2) hstep i

/-- C5: starting from a fresh plugin (empty concretized-AST record, no
constraints yet), any sequence of `_concretize` calls adds at most one
equality constraint per value identity, and a call on a value whose identity
is already in the record leaves the state untouched (in particular it adds no
constraint). -/
theorem concretize_constraint_once (ctx : PassCtx) (s0 : Sim)
    (h0 : s0.u._concretized_asts = ∅) (h1 : s0.constraints = []) :
    (∀ ds : List AST, ∀ i : Nat, (concretize_run ctx s0 ds).constraints.count i ≤ 1) ∧
    (∀ s : Sim, ∀ d : AST, d.ident ∈ s.u._concretized_asts → (_concretize ctx s d).2 = s) := by
  constructor
  · intro ds i
    have hbase : ∀ i, s0.constraints.count i = if i ∈ s0.u._concretized_asts then 1 else 0 := by
      intro i
      rw [h0, h1]
      simp
    rw [concretize_run_invariant ctx ds s0 hbase i]
    split <;> omega
  · intro s d hd
    simp only [_concretize, if_pos hd]

def ctx0 : PassCtx :=
  { eval := fun d => { d with symbolic := false }
    aggressive := true
    sym_regs := false
    ip := 0 }

def sim0 : Sim := { u := u_base, constraints := [] }

def d0 : AST := { annots := 0, symbolic := true, vars := {7}, ident := 9 }

/-- C5 witness: two `_concretize` calls on the same identity leave at most
one recorded constraint. -/
theorem concretize_constraint_once_witness :
    (concretize_run ctx0 sim0 [d0, d0]).constraints.count 9 ≤ 1 :=
  (concretize_constraint_once ctx0 sim0 rfl rfl).1 [d0, d0] 9

/-! ### C9: evaluation order of the value-classifier policy -/

/-- C9: the classifier refuses annotated values, passes concrete values
through, and for symbolic values evaluates the selective-concretization
policy in order: aggressive concretization first; then the
`never_concretize` veto (returning the value still symbolic, for any
contents of `always_concretize` / `concretize_at`); then the
`always_concretize`-subset and `concretize_at` triggers; otherwise the value
is returned unchanged. -/
theorem process_value_policy_order (ctx : PassCtx) (s : Sim) (d : AST) (w : Side) :
    (0 < d.annots → _process_value ctx s d w = (none, s)) ∧
    (d.annots = 0 → d.symbolic = false → _process_value ctx s d w = (some d, s)) ∧
    (d.symbolic = true → ctx.aggressive = true →
      _symbolic_passthrough ctx s d = _concretize ctx s d) ∧
    (d.symbolic = true → ctx.aggressive = false →
      0 < (d.vars ∩ s.u.never_concretize).card →
      _symbolic_passthrough ctx s d = (d, s)) ∧
    (d.symbolic = true → ctx.aggressive = false →
      (d.vars ∩ s.u.never_concretize).card = 0 →
      (d.vars ⊆ s.u.always_concretize ∨ ctx.ip ∈ s.u.concretize_at) →
      _symbolic_passthrough ctx s d = _concretize ctx s d) ∧
    (d.symbolic = true → ctx.aggressive = false →
      (d.vars ∩ s.u.never_concretize).card = 0 →
      ¬d.vars ⊆ s.u.always_concretize → ctx.ip ∉ s.u.concretize_at →
      _symbolic_passthrough ctx s d = (d, s)) := by
  refine ⟨?_, ?_, ?_, ?_, ?_, ?_⟩
  · intro h
    simp [_process_value, h]
  · intro h hs
    simp [_process_value, h, hs]
  · intro hs ha
    simp [_symbolic_passthrough, hs, ha]
  · intro hs ha hn
    simp [_symbolic_passthrough, hs, ha, hn]
  · intro hs ha hn hor
    rcases hor with hsub | hip
    · simp [_symbolic_passthrough, hs, ha, hn, hsub]
    · by_cases hsub : d.vars ⊆ s.u.always_concretize
      · simp [_symbolic_passthrough, hs, ha, hn, hsub]
      · simp [_symbolic_passthrough, hs, ha, hn, hsub, hip]
  · intro hs ha hn hsub hip
    simp [_symbolic_passthrough, hs, ha, hn, hsub, hip]

def u9 : Unicorn :=
  { u_base with never_concretize := {5}, always_concretize := {5} }

def sim9 : Sim := { u := u9, constraints := [] }

def ctx9 : PassCtx :=
  { eval := fun d => { d with symbolic := false }
    aggressive := false
    sym_regs := true
    ip := 0 }

def d9 : AST := { annots := 0, symbolic := true, vars := {5}, ident := 3 }

/-- C9 witness: a symbolic value whose variable is vetoed by
`never_concretize` passes through unchanged even though it is also in
`always_concretize`. -/
theorem process_value_policy_order_witness :
    _symbolic_passthrough ctx9 sim9 d9 = (d9, sim9) :=
  (process_value_policy_order ctx9 sim9 d9 Side.reg).2.2.2.1 rfl rfl (by decide)

/-! ### C7: mutation replay in `finish` -/

lemma getD_map_range (f : Nat → Nat) (len i : Nat) (h : i < len) :
    ((List.range len).map f).getD i 0 = f i := by
  rw [List.getD_eq_getElem?_getD, List.getElem?_map, List.getElem?_range h]
  rfl

/-- Reading back a store of emulator bytes: inside the stored range the
symbolic memory now holds the emulator's bytes, outside it is unchanged. -/
lemma memory_store_read (emu m : Nat → Nat) (addr len a : Nat) :
    memory_store m addr (uc_mem_read emu addr len) a
      = if addr ≤ a ∧ a < addr + len then emu a else m a := by
  simp only [memory_store, uc_mem_read, List.length_map, List.length_range]
  by_cases h : addr ≤ a ∧ a < addr + len
  · rw [if_pos h, if_pos h, getD_map_range _ len (a - addr) (by omega)]
    congr 1
    omega
  · rw [if_neg h, if_neg h]

/-- Addresses not covered by any out-of-fake-GDT entry are untouched by the
mutation walk. -/
lemma sync_fold_untouched (emu : Nat → Nat) (l : List MEM_PATCH) :
    ∀ (m : Nat → Nat) (a : Nat),
      (∀ u ∈ l, (0x1000 ≤ u.address ∧ u.address < 0x2000) ∨
        ¬(u.address ≤ a ∧ a < u.address + u.length)) →
      l.foldl (sync_one emu) m a = m a := by
  induction l with
  | nil => intro m a _; rfl
  | cons u t ih =>
    intro m a h
    have hu := h u (List.mem_cons_self u t)
    have ht := fun w hw => h w (List.mem_cons_of_mem _ hw)
    show t.foldl (sync_one emu) (sync_one emu m u) a = m a
    rw [ih (sync_one emu m u) a ht]
    rcases hu with hin | hnc
    · simp [sync_one, hin]
    · by_cases hin : 0x1000 ≤ u.address ∧ u.address < 0x2000
      · simp [sync_one, hin]
      · simp only [sync_one, if_neg hin]
        rw [memory_store_read, if_neg hnc]

/-- Addresses covered by some out-of-fake-GDT entry end up holding the
emulator's byte (every covering entry stores the same frozen emulator
memory, so overlaps are harmless). -/
lemma sync_fold_covered (emu : Nat → Nat) (l : List MEM_PATCH) :
    ∀ (m : Nat → Nat) (a : Nat),
      (∃ u ∈ l, ¬(0x1000 ≤ u.address ∧ u.address < 0x2000) ∧
        u.address ≤ a ∧ a < u.address + u.length) →
      l.foldl (sync_one emu) m a = emu a := by
  induction l with
  | nil =>
    rintro m a ⟨u, hu, _⟩
    cases hu
  | cons u t ih =>
    intro m a h
    by_cases hrest : ∃ w ∈ t, ¬(0x1000 ≤ w.address ∧ w.address < 0x2000) ∧
        w.address ≤ a ∧ a < w.address + w.length
    · exact ih _ a hrest
    · obtain ⟨w, hw, hnotin, hcov⟩ := h
      rcases List.mem_cons.mp hw with rfl | hwt
      · show t.foldl (sync_one emu) (sync_one emu m w) a = emu a
        have huntouched : ∀ z ∈ t, (0x1000 ≤ z.address ∧ z.address < 0x2000) ∨
            ¬(z.address ≤ a ∧ a < z.address + z.length) := by
          intro z hz
          by_cases hz1 : 0x1000 ≤ z.address ∧ z.address < 0x2000
          · exact Or.inl hz1
          · refine Or.inr fun hzc => hrest ⟨z, hz, hz1, hzc⟩
        rw [sync_fold_untouched emu t _ a huntouched]
        simp only [sync_one, if_neg hnotin]
        rw [memory_store_read, if_pos hcov]
      · exact absurd ⟨w, hwt, hnotin, hcov⟩ hrest

/-- C7: over the walk of the native mutation list in `finish`, entries whose
address lies in the fake-GDT range `[0x1000, 0x2000)` leave the symbolic
memory unchanged; every address covered by an entry outside that range reads
back exactly the byte of emulator memory at that address; and the list is
freed exactly once after the walk. -/
theorem finish_sync_replay (emu m0 : Nat → Nat) (head : List MEM_PATCH) :
    (finish_sync emu head m0).2 = 1 ∧
    (∀ a, (∃ u ∈ head, ¬(0x1000 ≤ u.address ∧ u.address < 0x2000) ∧
        u.address ≤ a ∧ a < u.address + u.length) →
      (finish_sync emu head m0).1 a = emu a) ∧
    (∀ a, (∀ u ∈ head, (0x1000 ≤ u.address ∧ u.address < 0x2000) ∨
        ¬(u.address ≤ a ∧ a < u.address + u.length)) →
      (finish_sync emu head m0).1 a = m0 a) :=
  ⟨rfl, fun a h => sync_fold_covered emu head m0 a h,
    fun a h => sync_fold_untouched emu head m0 a h⟩

def emu7 : Nat → Nat := fun a => a % 256

def mem7 : Nat → Nat := fun _ => 0

def head7 : List MEM_PATCH := [⟨0x1800, 4⟩, ⟨0x3000, 2⟩]

/-- C7 witness: the entry at `0x3000` (outside the fake GDT) is replayed
from emulator memory, the entry at `0x1800` (inside it) is discarded. -/
theorem finish_sync_replay_witness :
    (finish_sync emu7 head7 mem7).1 0x3001 = emu7 0x3001 ∧
    (finish_sync emu7 head7 mem7).1 0x1802 = mem7 0x1802 :=
  ⟨(finish_sync_replay emu7 mem7 head7).2.1 0x3001 (by decide),
    (finish_sync_replay emu7 mem7 head7).2.2 0x1802 (by decide)⟩

/-! ### C6: x87 double ↔ 80-bit extended round-trip for normal doubles -/

/-- On a normal double (biased exponent strictly between 0 and 0x7FF) the
ingress conversion takes the normal-value branch. -/
lemma double_to_fp80_normal (val : Nat) (hv : val < 2 ^ 64)
    (h1 : 0 < val / 2 ^ 52 % 2 ^ 11) (h2 : val / 2 ^ 52 % 2 ^ 11 < 0x7FF) :
    double_to_fp80 val
      = (val / 2 ^ 63 * 2 ^ 15 + (val / 2 ^ 52 % 2 ^ 11 + 15360),
        val % 2 ^ 52 * 2 ^ 11 + 2 ^ 63) := by
  simp only [double_to_fp80]
  rw [if_pos (show val / 2 ^ 52 % 2 ^ 11 ≠ 0 ∧ val / 2 ^ 52 % 2 ^ 11 ≠ 2047 from
    ⟨by omega, by omega⟩)]
  by_cases hs1 : val / 2 ^ 63 % 2 = 1
  · have h63 : val / 2 ^ 63 = 1 := by omega
    rw [if_pos hs1, h63]
    dsimp only
    simp only [Prod.mk.injEq]
    constructor
    · omega
    · trivial
  · have h63 : val / 2 ^ 63 = 0 := by omega
    rw [if_neg hs1, h63]
    dsimp only
    simp only [Prod.mk.injEq]
    constructor
    · omega
    · trivial

/-- The egress conversion on an exponent word whose low 15 bits lie in the
range produced by a normal double. -/
lemma fp80_to_double_normal_range (E m sg : Nat) (hE1 : 15361 ≤ E)
    (hE2 : E ≤ 17406) (hsg : sg ≤ 1) :
    fp80_to_double (sg * 2 ^ 15 + E) m
      = sg * 2 ^ 63 + (E - 15360) * 2 ^ 52 + m / 2 ^ 11 % 2 ^ 52 := by
  simp only [fp80_to_double]
  have hq1 : (sg * 2 ^ 15 + E) / 2 ^ 15 % 2 = sg := by omega
  have hq2 : (sg * 2 ^ 15 + E) % 2 ^ 15 = E := by omega
  rw [hq1, hq2]
  rw [if_pos (show E ≠ 0 ∧ E ≠ 32767 from ⟨by omega, by omega⟩)]
  have hle : ¬((E : Int) - 16383 + 1023 ≤ 0) := by omega
  have hge : ¬((0x7FF : Int) ≤ (E : Int) - 16383 + 1023) := by omega
  rw [if_neg hle, if_neg hge]
  have ht : ((E : Int) - 16383 + 1023).toNat = E - 15360 := by omega
  show (if sg = 1 then 2 ^ 63 else 0)
      + ((E : Int) - 16383 + 1023).toNat * 2 ^ 52 + m / 2 ^ 11 % 2 ^ 52
    = sg * 2 ^ 63 + (E - 15360) * 2 ^ 52 + m / 2 ^ 11 % 2 ^ 52
  rw [ht]
  by_cases hsg1 : sg = 1
  · rw [if_pos hsg1, hsg1]
    omega
  · rw [if_neg hsg1]
    have hz : sg = 0 := by omega
    rw [hz]
    omega

/-- C6: for every 64-bit value whose IEEE-754 double interpretation is a
normal number (biased exponent strictly between 0 and 0x7FF), the ingress
double→extended conversion followed by the egress extended→double conversion
returns exactly the original 64-bit value. -/
theorem fp80_double_roundtrip (val : Nat) (hv : val < 2 ^ 64)
    (h1 : 0 < val / 2 ^ 52 % 2 ^ 11) (h2 : val / 2 ^ 52 % 2 ^ 11 < 0x7FF) :
    fp80_to_double (double_to_fp80 val).1 (double_to_fp80 val).2 = val := by
  rw [double_to_fp80_normal val hv h1 h2]
  show fp80_to_double
      (val / 2 ^ 63 * 2 ^ 15 + (val / 2 ^ 52 % 2 ^ 11 + 15360))
      (val % 2 ^ 52 * 2 ^ 11 + 2 ^ 63) = val
  rw [fp80_to_double_normal_range (val / 2 ^ 52 % 2 ^ 11 + 15360)
    (val % 2 ^ 52 * 2 ^ 11 + 2 ^ 63) (val / 2 ^ 63) (by omega) (by omega) (by omega)]
  have ha : val / 2 ^ 52 % 2 ^ 11 + 15360 - 15360 = val / 2 ^ 52 % 2 ^ 11 := by
    omega
  rw [ha]
  have hb : (val % 2 ^ 52 * 2 ^ 11 + 2 ^ 63) / 2 ^ 11 % 2 ^ 52 = val % 2 ^ 52 := by
    have hdiv : (val % 2 ^ 52 * 2 ^ 11 + 2 ^ 63) / 2 ^ 11 = val % 2 ^ 52 + 2 ^ 52 := by
      omega
    rw [hdiv]
    omega
  rw [hb]
  omega

/-- C6 witness: the double `1.0` (bits `0x3FF0000000000000`) survives the
round-trip. -/
theorem fp80_double_roundtrip_witness :
    fp80_to_double (double_to_fp80 0x3FF0000000000000).1
      (double_to_fp80 0x3FF0000000000000).2 = 0x3FF0000000000000 :=
  fp80_double_roundtrip 0x3FF0000000000000 (by decide) (by decide) (by decide)

/-! ### C8: emulator-handle retention across `destroy` -/

def tls0 : TLSState := { uc := some ⟨0, 0, 0, 0, 0, 0⟩, unicount := 0, counter := 1 }

/-- C8 counterexample: `destroy` ends with `self.uc.reset()`, and the `uc`
property rebuilds a handle whenever the slot was just cleared by
`delete_uc`, so even for stop reason `STOP_ERROR` (not one of the four
benign reasons) the thread-local slot is *not* none after `destroy`
returns — the claim's "discarded (set to none)" fails. -/
theorem destroy_handle_not_none :
    (Unicorn.destroy 0 0 STOP_ERROR tls0).uc ≠ none ∧
    STOP_ERROR ∉ [STOP_NORMAL, STOP_STOPPOINT, STOP_SYMBOLIC_MEM, STOP_SYMBOLIC_REG] := by
  decide

/-- C8 (amended): during `destroy` the thread-local handle is cleared
(`delete_uc`) iff the stop reason is not one of normal, stoppoint,
symbolic-mem, symbolic-reg, but the trailing `self.uc.reset()` immediately
materializes a handle again, so after `destroy` the slot always holds one:
for the four benign reasons it is the *original* handle, merely reset (one
memory reset and one hook reset added); for every other reason the original
handle is discarded and the slot holds a freshly constructed one. -/
theorem destroy_handle_retention (arch ck reason : Nat) (s : TLSState)
    (h0 : Uniwrapper) (hh : s.uc = some h0) (ha : h0.arch = arch)
    (hc : h0.cache_key = ck) (hid : h0.id = s.unicount)
    (hgen : h0.gen < s.counter) :
    ∃ h', (Unicorn.destroy arch ck reason s).uc = some h' ∧
      (reason ∈ [STOP_NORMAL, STOP_STOPPOINT, STOP_SYMBOLIC_MEM, STOP_SYMBOLIC_REG] →
        h'.gen = h0.gen ∧ h'.mem_resets = h0.mem_resets + 1 ∧
        h'.hook_resets = h0.hook_resets + 1) ∧
      (reason ∉ [STOP_NORMAL, STOP_STOPPOINT, STOP_SYMBOLIC_MEM, STOP_SYMBOLIC_REG] →
        h'.gen ≠ h0.gen ∧ h'.mem_resets = 1 ∧ h'.hook_resets = 0) := by
  by_cases hr : reason ∈ [STOP_NORMAL, STOP_STOPPOINT, STOP_SYMBOLIC_MEM, STOP_SYMBOLIC_REG]
  · refine ⟨⟨h0.gen, arch, ck, s.counter + 1, h0.mem_resets + 1, h0.hook_resets + 1⟩,
      ?_, fun _ => ⟨rfl, rfl, rfl⟩, fun hcon => absurd hr hcon⟩
    simp [Unicorn.destroy, uc_property, delete_uc, hh, ha, hc, hid, hr]
  · refine ⟨⟨s.counter + 1, arch, ck, s.counter + 1, 1, 0⟩,
      ?_, fun hcon => absurd hcon hr, fun _ => ⟨by simp; omega, rfl, rfl⟩⟩
    simp [Unicorn.destroy, uc_property, delete_uc, hh, ha, hc, hid, hr]

/-- C8 witness: a benign stop reason retains the handle (same construction
stamp), with exactly one additional memory reset. -/
theorem destroy_handle_retention_witness :
    ∃ h', (Unicorn.destroy 0 0 STOP_NORMAL tls0).uc = some h' ∧
      h'.gen = 0 ∧ h'.mem_resets = 1 := by
  obtain ⟨h', hu, hgood, _⟩ :=
    destroy_handle_retention 0 0 STOP_NORMAL tls0 ⟨0, 0, 0, 0, 0, 0⟩
      rfl rfl rfl rfl (by decide)
  obtain ⟨hg, hm, _⟩ := hgood (by decide)
  exact ⟨h', hu, hg, hm⟩

end UnicornPlugin
